import Mathlib

/-!
# Verification of the skill-source resolution and synchronization engine

A shallow embedding, in Lean 4, of the pure decision logic of the
skilljack MCP server: configuration-tier resolution, GitHub URL parsing
and allowlisting, remote sync / polling pinned-ref logic, skill
discovery and duplicate handling, invocation-override layering, the
file-read security gate, and the refresh debounce.  Filesystem and git
effects are modelled by explicit environment values; machine behaviour
(string splitting, regex tests) is translated into executable Lean
functions mirroring the TypeScript source statement by statement.

String primitives are implemented over `List Char` (`String.data`) so
that every definition evaluates by kernel reduction on concrete inputs.
-/

namespace Skilljack

/-! ## String primitives (JavaScript semantics over `List Char`) -/

/-- Split a character list at every occurrence of `c`, with the same
semantics as JavaScript `String.prototype.split` with a one-character
separator (trailing separators yield a trailing empty piece). -/
def splitChar (c : Char) : List Char → List (List Char)
  | [] => [[]]
  | x :: xs =>
    let r := splitChar c xs
    if x = c then [] :: r
    else match r with
      | h :: t => (x :: h) :: t
      | [] => [[x]]

/-- Join character lists with the separator `c` between pieces
(JavaScript `Array.prototype.join` with a one-character separator). -/
def joinChar (c : Char) : List (List Char) → List Char
  | [] => []
  | [l] => l
  | l :: ls => l ++ c :: joinChar c ls

/-- Split a string at every occurrence of the character `c`. -/
def splitOnChar (c : Char) (s : String) : List String :=
  (splitChar c s.data).map String.mk

/-- Join strings with the one-character separator `c`. -/
def joinStr (c : Char) (ls : List String) : String :=
  String.mk (joinChar c (ls.map String.data))

/-- Lower-case every character (JavaScript `toLowerCase`; the inputs the
program compares are ASCII, where the two functions agree). -/
def strToLower (s : String) : String := String.mk (s.data.map Char.toLower)

/-- Decide whether `pat` occurs as a contiguous sublist. -/
def listHasSub (pat : List Char) : List Char → Bool
  | [] => pat = []
  | x :: xs => pat.isPrefixOf (x :: xs) || listHasSub pat xs

/-- Substring test, mirroring JavaScript `String.prototype.includes`. -/
def containsSub (s pat : String) : Bool :=
  pat.data = [] || listHasSub pat.data s.data

/-- First `n` characters of a string. -/
def strTake (s : String) (n : Nat) : String := String.mk (s.data.take n)

/-- All but the first `n` characters of a string. -/
def strDrop (s : String) (n : Nat) : String := String.mk (s.data.drop n)

/-- All but the last `n` characters of a string. -/
def strDropRight (s : String) (n : Nat) : String :=
  String.mk (s.data.take (s.data.length - n))

/-- Prefix test on strings. -/
def strStartsWith (s pre : String) : Bool := pre.data.isPrefixOf s.data

/-- Suffix test on strings. -/
def strEndsWith (s suf : String) : Bool := suf.data.isSuffixOf s.data

/-- Trim leading and trailing whitespace (JavaScript
`String.prototype.trim` over the whitespace the program encounters). -/
def strTrim (s : String) : String :=
  String.mk (((s.data.dropWhile Char.isWhitespace).reverse.dropWhile
    Char.isWhitespace).reverse)

/-! ## `github-config.ts` -/

/-- Function `isGitHubUrl` from `github-config.ts`: detects paths
containing "github.com" (case-insensitively). -/
def isGitHubUrl (urlOrPath : String) : Bool :=
  containsSub (strToLower urlOrPath) "github.com"

/-- Parsed GitHub repository specification (`GitHubRepoSpec` in
`github-config.ts`).  `ref` may be a branch, tag, or commit;
`subpath` a subdirectory within the repo. -/
structure GitHubRepoSpec where
  owner : String
  repo : String
  ref : Option String := none
  subpath : Option String := none
  deriving DecidableEq, Repr

/-- GitHub-specific configuration (`GitHubConfig` in `github-config.ts`);
only the fields the verified logic reads. -/
structure GitHubConfig where
  allowedOrgs : List String
  allowedUsers : List String
  deriving DecidableEq, Repr

/-- Strip the protocol matched by the anchored regex on `https?` followed
by `://`, mirroring the first `replace` in `parseGitHubUrl`. -/
def stripProtocol (s : String) : String :=
  if strStartsWith s "https://" then strDrop s 8
  else if strStartsWith s "http://" then strDrop s 7
  else s

/-- Strip the case-insensitive `github.com/` host-domain prefix
(the `replace` with the anchored case-insensitive host regex). -/
def stripHost (s : String) : String :=
  if strToLower (strTake s 11) = "github.com/" then strDrop s 11 else s

/-- Strip a trailing `.git` (the `replace` with the anchored `.git` end
regex). -/
def stripDotGit (s : String) : String :=
  if strEndsWith s ".git" then strDropRight s 4 else s

/-- Split a string at the *last* `@` (`lastIndexOf("@")` plus the two
`slice`s): returns the part before it and, when an `@` exists, the
(possibly empty) suffix after it. -/
def splitLastAt (s : String) : String × Option String :=
  match (splitOnChar '@' s).reverse with
  | r :: (rest@(_ :: _)) => (joinStr '@' rest.reverse, some r)
  | _ => (s, none)

/-- Non-empty `/`-separated path segments
(`split("/").filter((p) => p.length > 0)`). -/
def pathParts (s : String) : List String :=
  (splitOnChar '/' s).filter (· ≠ "")

/-- JavaScript truthiness of the optional `ref` string: `undefined` and
`""` are both falsy (`if (!ref)`). -/
def refFalsy : Option String → Bool
  | none => true
  | some r => r = ""

/-- The `normalized` string of `parseGitHubUrl` after the ref was split
off at the last `@`. -/
def normalizedRest (url : String) : String :=
  (splitLastAt (stripDotGit (stripHost (stripProtocol url)))).1

/-- The `ref` captured from the last `@` of the normalized string
(`undefined` when no `@` remains). -/
def atRef (url : String) : Option String :=
  (splitLastAt (stripDotGit (stripHost (stripProtocol url)))).2

/-- Function `parseGitHubUrl` from `github-config.ts`: strips protocol,
host prefix and trailing `.git`, takes the ref from the last `@`,
requires at least owner and repo segments, and recognizes `tree/<ref>` /
`blob/<ref>` web-style paths. -/
def parseGitHubUrl (url : String) : Except String GitHubRepoSpec :=
  let rest := normalizedRest url
  let ref := atRef url
  match pathParts rest with
  | owner :: repo :: tail =>
    match tail with
    | t :: r :: tail2 =>
      -- parts.length >= 4 and parts[2] is "tree" or "blob"
      if t = "tree" ∨ t = "blob" then
        let ref2 := if refFalsy ref then some r else ref
        let subpath := if tail2 = [] then none else some (joinStr '/' tail2)
        .ok { owner := owner, repo := repo, ref := ref2, subpath := subpath }
      else
        .ok { owner := owner, repo := repo, ref := ref,
              subpath := some (joinStr '/' tail) }
    | _ :: [] =>
      .ok { owner := owner, repo := repo, ref := ref,
            subpath := some (joinStr '/' tail) }
    | [] =>
      .ok { owner := owner, repo := repo, ref := ref, subpath := none }
  | _ => .error ("Invalid GitHub URL: " ++ url)

/-- Function `isRepoAllowed` from `github-config.ts`: with both
allowlists empty every repo is denied; otherwise the owner must equal
(case-insensitively) some allowed org or user. -/
def isRepoAllowed (spec : GitHubRepoSpec) (config : GitHubConfig) : Bool :=
  if config.allowedOrgs = [] ∧ config.allowedUsers = [] then
    false
  else
    let ownerLower := strToLower spec.owner
    if config.allowedOrgs.any (fun org => strToLower org = ownerLower) then true
    else if config.allowedUsers.any (fun user => strToLower user = ownerLower) then true
    else false

/-- The allowlist filter loop in `main` (`index.ts`): the specs that
survive `isRepoAllowed` and get synced, in order. -/
def allowedSpecs (specs : List GitHubRepoSpec) (config : GitHubConfig) : List GitHubRepoSpec :=
  specs.filter (fun spec => isRepoAllowed spec config)

/-! ## `skill-config.ts`: source config resolver and override store

JavaScript objects used as string-keyed records are modelled as
association lists with unique keys; `process.argv`, `SKILLS_DIR`,
`path.resolve` and `fs.existsSync` are passed in explicitly. -/

/-- Lookup in an association list (JavaScript object property read). -/
def assocLookup {α β : Type} [DecidableEq α] (m : List (α × β)) (k : α) : Option β :=
  match m with
  | [] => none
  | (k', v) :: rest => if k' = k then some v else assocLookup rest k

/-- Update the value at a key in place, appending a fresh entry seeded
with `d` when the key is absent (JavaScript
`obj[k] = obj[k] ?? d; mutate obj[k]`). -/
def assocUpdate {β : Type} (m : List (String × β)) (k : String) (f : β → β) (d : β) :
    List (String × β) :=
  match m with
  | [] => [(k, f d)]
  | (k', v) :: rest => if k' = k then (k', f v) :: rest else (k', v) :: assocUpdate rest k f d

/-- Remove a key (JavaScript `delete obj[k]`). -/
def assocRemove {β : Type} (m : List (String × β)) (k : String) : List (String × β) :=
  m.filter (fun p => p.1 ≠ k)

/-- Per-skill invocation override record (`SkillInvocationOverrides`). -/
structure SkillInvocationOverrides where
  assistant : Option Bool := none
  user : Option Bool := none
  deriving DecidableEq, Repr

/-- Configuration file schema (`SkillConfig`), as normalized by
`loadConfigFile`. -/
structure SkillConfig where
  skillDirectories : List String
  staticMode : Bool := false
  skillInvocationOverrides : List (String × SkillInvocationOverrides) := []
  githubAllowedOrgs : List String := []
  githubAllowedUsers : List String := []
  deriving DecidableEq, Repr

/-- Source tier of a configured directory (`DirectorySource`). -/
inductive DirectorySource
  | cli
  | env
  | config
  deriving DecidableEq, Repr

/-- Kind of skill source (`SourceType`): local directory or GitHub repo
("local" is spelt `localDir` because `local` is a Lean keyword). -/
inductive SourceType
  | localDir
  | github
  deriving DecidableEq, Repr

/-- A configured skill directory with its source info (`DirectoryInfo`). -/
structure DirectoryInfo where
  path : String
  source : DirectorySource
  type : SourceType
  skillCount : Nat
  valid : Bool
  deriving DecidableEq, Repr

/-- Configuration state (`ConfigState`): the active directories, which
tier supplied them, and whether persisted-config edits are inert. -/
structure ConfigState where
  directories : List DirectoryInfo
  activeSource : DirectorySource
  isOverridden : Bool
  deriving DecidableEq, Repr

/-- Function `isValidPath`: GitHub URLs are validated at sync time and
count as valid; local paths must exist. -/
def isValidPath (pathExists : String → Bool) (p : String) : Bool :=
  if isGitHubUrl p then true else pathExists p

/-- Function `getSourceType`. -/
def getSourceType (p : String) : SourceType :=
  if isGitHubUrl p then SourceType.github else SourceType.localDir

/-- Keep the first occurrence of each element, dropping later repeats
(JavaScript spread of a `Set` built from an array). -/
def firstDedupAux (seen : List String) : List String → List String
  | [] => []
  | x :: xs =>
    if seen.contains x then firstDedupAux seen xs
    else x :: firstDedupAux (x :: seen) xs

/-- Entry point of the first-occurrence deduplication. -/
def firstDedup (l : List String) : List String := firstDedupAux [] l

/-- One comma-separated path-list segment pipeline shared by
`parseCLIArgs` and `parseEnvVar`: split on `,`, trim, drop empties,
resolve local paths (GitHub URLs unchanged). -/
def splitPathList (resolve : String → String) (s : String) : List String :=
  (((splitOnChar ',' s).map strTrim).filter (· ≠ "")).map
    (fun p => if isGitHubUrl p then p else resolve p)

/-- Function `parseCLIArgs`: non-flag positional arguments, each a
comma-separated list, deduplicated keeping first occurrences. -/
def parseCLIArgs (argv : List String) (resolve : String → String) : List String :=
  firstDedup ((argv.filter (fun a => !strStartsWith a "-")).flatMap (splitPathList resolve))

/-- Function `parseEnvVar`: the `SKILLS_DIR` environment variable with
the same comma-separated grammar (missing or empty means no entries). -/
def parseEnvVar (envVal : Option String) (resolve : String → String) : List String :=
  match envVal with
  | none => []
  | some s => if s = "" then [] else firstDedup (splitPathList resolve s)

/-- Build one `DirectoryInfo` the way every branch of `getConfigState`
does (`skillCount` is 0, filled in by the caller). -/
def mkDirInfo (src : DirectorySource) (pathExists : String → Bool) (p : String) :
    DirectoryInfo :=
  { path := p, source := src, type := getSourceType p, skillCount := 0,
    valid := isValidPath pathExists p }

/-- Function `getConfigState`: strict tier precedence CLI args over env
var over persisted config; the first tier yielding at least one entry
supplies the whole active set; `isOverridden` marks the CLI/env tiers. -/
def getConfigState (argv : List String) (envVal : Option String) (cfg : SkillConfig)
    (resolve : String → String) (pathExists : String → Bool) : ConfigState :=
  let cliDirs := parseCLIArgs argv resolve
  if cliDirs ≠ [] then
    { directories := cliDirs.map (mkDirInfo DirectorySource.cli pathExists),
      activeSource := DirectorySource.cli, isOverridden := true }
  else
    let envDirs := parseEnvVar envVal resolve
    if envDirs ≠ [] then
      { directories := envDirs.map (mkDirInfo DirectorySource.env pathExists),
        activeSource := DirectorySource.env, isOverridden := true }
    else
      { directories := cfg.skillDirectories.map (mkDirInfo DirectorySource.config pathExists),
        activeSource := DirectorySource.config, isOverridden := false }

/-- Which setting a per-skill override CRUD call addresses. -/
inductive OvrSetting
  | assistant
  | user
  deriving DecidableEq, Repr

/-- The empty override record (`{}` in the JavaScript source). -/
def emptyOvr : SkillInvocationOverrides := { assistant := none, user := none }

/-- Set one field of an override record. -/
def setOvrField (o : SkillInvocationOverrides) : OvrSetting → Bool → SkillInvocationOverrides
  | OvrSetting.assistant, v => { o with assistant := some v }
  | OvrSetting.user, v => { o with user := some v }

/-- Delete one field of an override record. -/
def clearOvrField (o : SkillInvocationOverrides) : OvrSetting → SkillInvocationOverrides
  | OvrSetting.assistant => { o with assistant := none }
  | OvrSetting.user => { o with user := none }

/-- Function `setSkillInvocationOverride`: creates the per-skill entry
when needed and sets the requested flag. -/
def setSkillInvocationOverride (cfg : SkillConfig) (skillName : String)
    (setting : OvrSetting) (value : Bool) : SkillConfig :=
  let updated := assocUpdate cfg.skillInvocationOverrides skillName
    (fun o => setOvrField o setting value) emptyOvr
  { cfg with skillInvocationOverrides := updated }

/-- Function `clearSkillInvocationOverride`: with a setting, deletes that
flag (and the entry once empty); with no setting, deletes the whole
entry; a no-op when no entry exists. -/
def clearSkillInvocationOverride (cfg : SkillConfig) (skillName : String)
    (setting : Option OvrSetting) : SkillConfig :=
  match assocLookup cfg.skillInvocationOverrides skillName with
  | none => cfg
  | some o =>
    match setting with
    | some s =>
      let o2 := clearOvrField o s
      if o2.assistant = none ∧ o2.user = none then
        { cfg with skillInvocationOverrides :=
            assocRemove cfg.skillInvocationOverrides skillName }
      else
        { cfg with skillInvocationOverrides :=
            assocUpdate cfg.skillInvocationOverrides skillName (fun _ => o2) emptyOvr }
    | none =>
      { cfg with skillInvocationOverrides :=
          assocRemove cfg.skillInvocationOverrides skillName }

/-! ## `github-sync.ts`: remote sync engine

Network and git effects are modelled by an explicit environment: the
state of the local cache (if any) and the outcome the retried clone or
pull would settle on.  The retry/backoff loop surfaces exactly its final
outcome, so the environment records that final outcome directly. -/

/-- Hexadecimal digit test (character class `[0-9a-f]` with the `i`
flag). -/
def isHexChar (c : Char) : Bool :=
  c.isDigit || ('a' ≤ c && c ≤ 'f') || ('A' ≤ c && c ≤ 'F')

/-- Test of the anchored commit-hash regex on `[0-9a-f]` repeated 7 to
40 times, case-insensitive (`isCommit` in `github-sync.ts` and
`isCommitHash` in `github-polling.ts`). -/
def isCommitHash (r : String) : Bool :=
  7 ≤ r.data.length && r.data.length ≤ 40 && r.data.all isHexChar

/-- Linear membership scan used where the source calls
`Array.prototype.includes` on tag lists. -/
def strListHas (l : List String) (r : String) : Bool :=
  match l with
  | [] => false
  | x :: xs => if x = r then true else strListHas xs r

/-- Observable state of an existing local cache clone: its tag list,
current `HEAD` revision, the remote-tracking revisions visible after a
fetch, and whether that fetch (plus revision read) succeeds. -/
structure LocalRepo where
  tags : List String
  head : String
  remoteRefs : List (String × String)
  fetchOk : Bool := true
  deriving DecidableEq, Repr

/-- Result of a sync operation (`SyncResult`), minus the echoed spec. -/
structure SyncResult where
  localPath : String
  clonePath : String
  updated : Bool
  error : Option String := none
  deriving DecidableEq, Repr

/-- Function `getRepoClonePath` (`path.join(cacheDir, owner, repo)`). -/
def getRepoClonePath (spec : GitHubRepoSpec) (cacheDir : String) : String :=
  cacheDir ++ "/" ++ spec.owner ++ "/" ++ spec.repo

/-- Function `getRepoCachePath`: the clone path plus the optional
subpath. -/
def getRepoCachePath (spec : GitHubRepoSpec) (cacheDir : String) : String :=
  match spec.subpath with
  | some sp => getRepoClonePath spec cacheDir ++ "/" ++ sp
  | none => getRepoClonePath spec cacheDir

/-- Environment a single `syncRepo` call runs against: the cache state
at the clone path, the final outcome of `cloneWithRetry` (when no cache
exists), the final outcome of `pullWithRetry` (`true` means `HEAD`
changed), and whether the configured subpath exists after syncing. -/
structure GitEnv where
  cache : Option LocalRepo
  cloneOutcome : Except String Unit := Except.ok ()
  pullOutcome : Except String Bool := Except.ok false
  subpathPresent : Bool := true
  deriving Repr

/-- The four user-actionable categories the sync error handler
distinguishes. -/
inductive ErrCat
  | authentication
  | rateLimited
  | notFound
  | generic
  deriving DecidableEq, Repr

/-- Classification chain of the `catch` block in `syncRepo`: first
match among authentication, rate-limit, not-found; generic otherwise. -/
def classifyCat (msg : String) : ErrCat :=
  if containsSub msg "Authentication failed" || containsSub msg "403" then
    ErrCat.authentication
  else if containsSub msg "rate limit" then ErrCat.rateLimited
  else if containsSub msg "not found" || containsSub msg "404" then ErrCat.notFound
  else ErrCat.generic

/-- The actionable message each category renders in `syncRepo`. -/
def renderSyncError (spec : GitHubRepoSpec) (msg : String) : String :=
  match classifyCat msg with
  | ErrCat.authentication =>
      "Authentication failed for " ++ spec.owner ++ "/" ++ spec.repo ++
      ". For private repos, set GITHUB_TOKEN environment variable."
  | ErrCat.rateLimited =>
      "Rate limited when accessing " ++ spec.owner ++ "/" ++ spec.repo ++
      ". Try again later."
  | ErrCat.notFound => "Repository not found: " ++ spec.owner ++ "/" ++ spec.repo
  | ErrCat.generic =>
      "Failed to sync " ++ spec.owner ++ "/" ++ spec.repo ++ ": " ++ msg

/-- The pinned-ref test inside `syncRepo`: a ref without `/` that is an
existing tag of the cache or looks like a commit hash skips the pull. -/
def pinnedSkip (spec : GitHubRepoSpec) (repo : LocalRepo) : Bool :=
  match spec.ref with
  | none => false
  | some r => !(r.data.contains '/') && (strListHas repo.tags r || isCommitHash r)

/-- The subpath verification at the end of `syncRepo` (skipped on the
pinned early return). -/
def subpathError (spec : GitHubRepoSpec) (env : GitEnv) : Option String :=
  match spec.subpath with
  | some sp =>
      if env.subpathPresent then none
      else some ("Subpath \"" ++ sp ++ "\" not found in repository")
  | none => none

/-- Function `syncRepo`: clone when no cache exists, otherwise pull
unless the ref is pinned; every underlying failure is caught and
classified into the result's `error` field (the function is total:
nothing escapes). -/
def syncRepo (spec : GitHubRepoSpec) (cacheDir : String) (env : GitEnv) : SyncResult :=
  let clonePath := getRepoClonePath spec cacheDir
  let localPath := getRepoCachePath spec cacheDir
  match env.cache with
  | none =>
    match env.cloneOutcome with
    | Except.ok _ =>
        { localPath := localPath, clonePath := clonePath, updated := true,
          error := subpathError spec env }
    | Except.error msg =>
        { localPath := localPath, clonePath := clonePath, updated := false,
          error := some (renderSyncError spec msg) }
  | some repo =>
    if pinnedSkip spec repo then
      -- early return: the pull and the subpath check are both skipped
      { localPath := localPath, clonePath := clonePath, updated := false, error := none }
    else
      match env.pullOutcome with
      | Except.ok changed =>
          { localPath := localPath, clonePath := clonePath, updated := changed,
            error := subpathError spec env }
      | Except.error msg =>
          { localPath := localPath, clonePath := clonePath, updated := false,
            error := some (renderSyncError spec msg) }

/-- Function `syncAllRepos`: syncs the specs one after another in list
order, collecting one result per spec. -/
def syncAllRepos (specs : List GitHubRepoSpec) (cacheDir : String)
    (env : GitHubRepoSpec → GitEnv) : List SyncResult :=
  match specs with
  | [] => []
  | spec :: rest => syncRepo spec cacheDir (env spec) :: syncAllRepos rest cacheDir env

/-- Function `hasRemoteUpdates`: `true` with no cache; `false` for a ref
that is an existing tag or commit hash; otherwise fetch and compare the
local `HEAD` with the remote ref (falling back to `origin/main` /
`origin/master`, and to `false` when the fetch fails). -/
def hasRemoteUpdates (spec : GitHubRepoSpec) (cache : Option LocalRepo) : Bool :=
  match cache with
  | none => true
  | some repo =>
    let pinned :=
      match spec.ref with
      | some r => strListHas repo.tags r || isCommitHash r
      | none => false
    if pinned then false
    else if !repo.fetchOk then false
    else
      let remoteRef :=
        match spec.ref with
        | some r => "origin/" ++ r
        | none => "origin/HEAD"
      match assocLookup repo.remoteRefs remoteRef with
      | some remoteHead => repo.head ≠ remoteHead
      | none =>
        match assocLookup repo.remoteRefs "origin/main" with
        | some h => repo.head ≠ h
        | none =>
          match assocLookup repo.remoteRefs "origin/master" with
          | some h => repo.head ≠ h
          | none => false

/-! ## `github-polling.ts`: polling manager polled subset -/

/-- Test of the unanchored-at-the-end version-tag regex (`v?` then
digits, then dot-digit groups): a match exists at the start of `r`
exactly when, after an optional leading `v`, the first character is a
digit. -/
def isVersionTagPattern (r : String) : Bool :=
  match r.data with
  | 'v' :: c :: _ => c.isDigit
  | c :: _ => c.isDigit
  | [] => false

/-- Function `getPolledSpecs`: refs without a pin are polled; refs that
look like a version tag or a commit hash are excluded. -/
def getPolledSpecs (specs : List GitHubRepoSpec) : List GitHubRepoSpec :=
  specs.filter (fun spec =>
    match spec.ref with
    | none => true
    | some r => !isVersionTagPattern r && !isCommitHash r)

/-! ## `skill-discovery.ts`: discovery, parsing, overrides, index build

Directory contents and YAML parse outcomes are modelled as data: a
directory listing is the ordered entry list `readdirSync` returns, and
each skill folder's definition-file probe carries the already-parsed
frontmatter mapping (or the parse failure). -/

/-- A scalar YAML frontmatter value as the validation code
distinguishes them: a string, a boolean, or anything else. -/
inductive Yaml
  | str (s : String)
  | bool (b : Bool)
  | other
  deriving DecidableEq, Repr

/-- Source information attached to a discovered skill (`SkillSource`). -/
structure SkillSource where
  type : SourceType
  displayName : String
  owner : Option String := none
  repo : Option String := none
  deriving DecidableEq, Repr

/-- Default source for skills without explicit source info. -/
def DEFAULT_SKILL_SOURCE : SkillSource :=
  { type := SourceType.localDir, displayName := "Local" }

/-- Metadata for one discovered skill (`SkillMetadata`): raw frontmatter
flags plus computed effective invocability and override markers. -/
structure SkillMetadata where
  name : String
  description : String
  path : String
  disableModelInvocation : Bool
  userInvocable : Bool
  effectiveAssistantInvocable : Bool
  effectiveUserInvocable : Bool
  isAssistantOverridden : Bool
  isUserOverridden : Bool
  source : SkillSource
  deriving DecidableEq, Repr

/-- Outcome of `findSkillMd` plus `parseFrontmatter` for one skill
folder: which filename variant was found and the frontmatter mapping or
the parse error. -/
structure SkillFileProbe where
  fileName : String
  parsed : Except String (List (String × Yaml))
  deriving Repr

/-- One entry of `readdirSync(skillsDir, withFileTypes)`. -/
structure DirEntry where
  name : String
  isDirectory : Bool
  skillMd : Option SkillFileProbe
  deriving Repr

/-- A directory as `discoverSkills` observes it: whether it exists and
its ordered entry list. -/
structure DirListing where
  path : String
  present : Bool
  entries : List DirEntry
  deriving Repr

/-- The per-folder body of the `discoverSkills` loop: skip non-folders
and folders without a definition file; a parse failure or a missing or
empty `name` / `description` invalidates that one skill; otherwise build
the record with effective values initialised from the frontmatter. -/
def entryToSkill (dirPath : String) (source : SkillSource) (e : DirEntry) :
    Option SkillMetadata :=
  if !e.isDirectory then none
  else
    match e.skillMd with
    | none => none
    | some probe =>
      match probe.parsed with
      | Except.error _ => none
      | Except.ok fields =>
        match assocLookup fields "name" with
        | some (Yaml.str name) =>
          if strTrim name = "" then none
          else
            match assocLookup fields "description" with
            | some (Yaml.str description) =>
              if strTrim description = "" then none
              else
                let dmi := assocLookup fields "disable-model-invocation"
                let ui := assocLookup fields "user-invocable"
                let disable := decide (dmi = some (Yaml.bool true))
                let user := decide (ui ≠ some (Yaml.bool false))
                some { name := strTrim name,
                       description := strTrim description,
                       path := dirPath ++ "/" ++ e.name ++ "/" ++ probe.fileName,
                       disableModelInvocation := disable,
                       userInvocable := user,
                       effectiveAssistantInvocable := !disable,
                       effectiveUserInvocable := user,
                       isAssistantOverridden := false,
                       isUserOverridden := false,
                       source := source }
            | _ => none
        | _ => none

/-- Function `discoverSkills`: an absent directory yields no skills;
otherwise folders are scanned in enumeration order and invalid skills
are skipped without aborting the scan. -/
def discoverSkills (dir : DirListing) (source : SkillSource) : List SkillMetadata :=
  if !dir.present then [] else dir.entries.filterMap (entryToSkill dir.path source)

/-- One configured directory as `discoverSkillsFromDirs` sees it: the
directory itself plus the `SKILL_SUBDIRS` listings that exist beneath
it, each with the source the directory-source map assigns. -/
structure ScanDir where
  source : SkillSource
  main : DirListing
  subs : List (SkillSource × DirListing)
  deriving Repr

/-- The records one configured directory contributes, in scan order:
the directory itself, then its standard subdirectories. -/
def dirScanRecords (d : ScanDir) : List SkillMetadata :=
  if !d.main.present then []
  else
    discoverSkills d.main d.source ++
      (d.subs.map (fun p => discoverSkills p.2 p.1)).flatten

/-- All records of a multi-directory scan in scan order (configured
directory order, then folder enumeration within each directory), before
deduplication. -/
def scanRecords (dirs : List ScanDir) : List SkillMetadata :=
  (dirs.map dirScanRecords).flatten

/-- The duplicate-name warning `discoverSkillsFromDirs` logs. -/
def dupDirWarning (s : SkillMetadata) : String :=
  "Warning: Duplicate skill \"" ++ s.name ++ "\" found (already loaded)"

/-- The `seenNames` first-occurrence-wins loop of
`discoverSkillsFromDirs`: keeps each first occurrence, logs one warning
per suppressed later occurrence. -/
def dedupFirstAux (seen : List (String × String)) :
    List SkillMetadata → List SkillMetadata × List String
  | [] => ([], [])
  | s :: rest =>
    match assocLookup seen s.name with
    | some _ =>
      let r := dedupFirstAux seen rest
      (r.1, dupDirWarning s :: r.2)
    | none =>
      let r := dedupFirstAux ((s.name, s.path) :: seen) rest
      (s :: r.1, r.2)

/-- Function `discoverSkillsFromDirs`: scans all configured directories
and their standard subdirectories in order, deduplicating by skill name
first-occurrence-wins; returns the retained records and the warnings. -/
def discoverSkillsFromDirs (dirs : List ScanDir) : List SkillMetadata × List String :=
  dedupFirstAux [] (scanRecords dirs)

/-- The duplicate-name warning `createSkillMap` logs. -/
def dupMapWarning (s : SkillMetadata) : String :=
  "Warning: Duplicate skill name \"" ++ s.name ++ "\" found at " ++ s.path ++
  " - keeping first occurrence"

/-- The insertion loop of `createSkillMap` with its accumulated map and
warning list. -/
def createSkillMapAux (map : List (String × SkillMetadata)) (warns : List String) :
    List SkillMetadata → List (String × SkillMetadata) × List String
  | [] => (map, warns)
  | s :: rest =>
    match assocLookup map s.name with
    | some _ => createSkillMapAux map (warns ++ [dupMapWarning s]) rest
    | none => createSkillMapAux (map ++ [(s.name, s)]) warns rest

/-- Function `createSkillMap`: name-keyed index with first-wins
behaviour; duplicates are logged, never surfaced as an error. -/
def createSkillMap (skills : List SkillMetadata) :
    List (String × SkillMetadata) × List String :=
  createSkillMapAux [] [] skills

/-- The per-record body of `applyInvocationOverrides`: pure
recomputation of the effective flags from the frontmatter defaults and
the override map; a record without an override is returned unchanged. -/
def applyOverrideTo (overrides : List (String × SkillInvocationOverrides))
    (skill : SkillMetadata) : SkillMetadata :=
  match assocLookup overrides skill.name with
  | none => skill
  | some o =>
    { skill with
      effectiveAssistantInvocable :=
        match o.assistant with
        | some v => v
        | none => !skill.disableModelInvocation,
      effectiveUserInvocable :=
        match o.user with
        | some v => v
        | none => skill.userInvocable,
      isAssistantOverridden := o.assistant.isSome,
      isUserOverridden := o.user.isSome }

/-- Entry point of `applyInvocationOverrides`: the per-record
recomputation mapped over the whole freshly-discovered set. -/
def applyInvocationOverrides (skills : List SkillMetadata)
    (overrides : List (String × SkillInvocationOverrides)) : List SkillMetadata :=
  skills.map (applyOverrideTo overrides)

/-! ## `index.ts`: local change watcher debounce

The `debouncedRefresh` closure keeps at most one pending timer: each
qualifying filesystem event clears any pending timer and schedules a new
one `SKILL_REFRESH_DEBOUNCE_MS` later; a timer that reaches its deadline
before the next event fires one refresh.  Modelled over the
non-decreasing list of qualifying-event timestamps, the refresh
invocations are exactly the surviving deadlines. -/

/-- Debounce delay for skill directory changes (ms). -/
def SKILL_REFRESH_DEBOUNCE_MS : Nat := 500

/-- Last path segment (`path.basename`). -/
def basenameOf (p : String) : String :=
  match (splitOnChar '/' p).reverse with
  | b :: _ => b
  | [] => ""

/-- The event filter of the `add` / `change` / `unlink` handlers in
`watchSkillDirectories`: the file's basename is `skill.md`
case-insensitively. -/
def qualifiesSkillFile (filePath : String) : Bool :=
  strToLower (basenameOf filePath) = "skill.md"

/-- Refresh times produced by `debouncedRefresh` for a non-decreasing
list of qualifying event times: the timer set at `t` is cleared when the
next event arrives strictly before `t + SKILL_REFRESH_DEBOUNCE_MS`, and
fires at that deadline otherwise. -/
def debounceFires : List Nat → List Nat
  | [] => []
  | [t] => [t + SKILL_REFRESH_DEBOUNCE_MS]
  | t1 :: t2 :: rest =>
    if t2 < t1 + SKILL_REFRESH_DEBOUNCE_MS then debounceFires (t2 :: rest)
    else (t1 + SKILL_REFRESH_DEBOUNCE_MS) :: debounceFires (t2 :: rest)

/-- A raw filesystem event as the five `watcher.on` handlers of
`watchSkillDirectories` receive it: `add` / `change` / `unlink` carry a
file path; `addDir` carries the new directory path together with the
outcome of the `fs.existsSync` probe for a `SKILL.md` / `skill.md`
inside it at event time; `unlinkDir` carries the removed directory
path. -/
inductive WatchEvent
  | fileAdd (filePath : String)
  | fileChange (filePath : String)
  | fileUnlink (filePath : String)
  | dirAdd (dirPath : String) (hasSkillMd : Bool)
  | dirUnlink (dirPath : String)
  deriving DecidableEq, Repr

/-- Whether a handler invokes `debouncedRefresh` for an event: the three
file handlers require the basename `skill.md` (case-insensitively), the
`addDir` handler requires the definition-file probe to succeed, and the
`unlinkDir` handler always refreshes. -/
def eventTriggersRefresh : WatchEvent → Bool
  | WatchEvent.fileAdd p => qualifiesSkillFile p
  | WatchEvent.fileChange p => qualifiesSkillFile p
  | WatchEvent.fileUnlink p => qualifiesSkillFile p
  | WatchEvent.dirAdd _ hasSkillMd => hasSkillMd
  | WatchEvent.dirUnlink _ => true

/-- The watcher pipeline: timestamped filesystem events pass the
per-handler qualification and feed the shared debouncer. -/
def watcherFires (events : List (Nat × WatchEvent)) : List Nat :=
  debounceFires ((events.filter (fun e => eventTriggersRefresh e.2)).map Prod.fst)

/-! ## `skill-resources.ts`: skill file reads and the security gate

The filesystem is a finite map from absolute paths (segment lists) to
nodes; `fs.statSync` follows symbolic links, exactly as in Node, which
is the crux of claim C3. -/

/-- A filesystem node: a regular file with content and size, a
directory, or a symbolic link to another absolute path. -/
inductive FsNode
  | file (content : String) (size : Nat)
  | dir
  | symlink (target : List String)
  deriving DecidableEq, Repr

/-- An absolute path as a list of segments. -/
abbrev FsPath := List String

/-- A filesystem: a finite association of paths to nodes. -/
abbrev Fs := List (FsPath × FsNode)

/-- Raw (lstat-like) node lookup, not following links. -/
def lookupNode (fs : Fs) (p : FsPath) : Option FsNode := assocLookup fs p

/-- Follow symbolic links with fuel, returning the final node. -/
def followNode (fs : Fs) : Nat → FsPath → Option FsNode
  | 0, _ => none
  | fuel + 1, p =>
    match lookupNode fs p with
    | some (FsNode.symlink t) => followNode fs fuel t
    | some n => some n
    | none => none

/-- Node `fs.statSync`: resolves the path *following symbolic links*, so
the stat it returns describes the link target and
`stat.isSymbolicLink()` can never be true. -/
def statSync (fs : Fs) (p : FsPath) : Option FsNode :=
  followNode fs (fs.length + 1) p

/-- Node `fs.existsSync` (follows links: a dangling link is absent). -/
def existsSync (fs : Fs) (p : FsPath) : Bool := (statSync fs p).isSome

/-- Node `fs.readFileSync` (follows links to the target content). -/
def readFileSync (fs : Fs) (p : FsPath) : Option String :=
  match statSync fs p with
  | some (FsNode.file c _) => some c
  | _ => none

/-- Lexical path normalization underlying `path.resolve`: empty and `.`
segments are dropped, `..` pops (clamping at the root). -/
def normSegs (segs : List String) : FsPath :=
  segs.foldl
    (fun acc s =>
      if s = "" ∨ s = "." then acc
      else if s = ".." then acc.dropLast
      else acc ++ [s])
    []

/-- The `path.resolve(skillDir, filePath)` call of the file-read
handler: an absolute `filePath` stands alone, a relative one is joined
onto the (absolute, already normalized) skill directory. -/
def resolvePath (base : FsPath) (rel : String) : FsPath :=
  if strStartsWith rel "/" then normSegs (splitOnChar '/' rel)
  else normSegs (base ++ splitOnChar '/' rel)

/-- Modelled from the spec: `isPathWithinBase` is defined in
`skill-tool.ts`, which is not among the provided sources.  The spec
requires a resolved path that escapes its declared base directory to be
rejected, i.e. containment holds exactly when the base is a path prefix
of the fully resolved target. -/
def isPathWithinBase (fullPath base : FsPath) : Bool :=
  base.isPrefixOf fullPath

/-- Modelled from the spec: `MAX_FILE_SIZE` is defined in
`skill-tool.ts`, not among the provided sources; the handler's error
message states the 10MB maximum. -/
def MAX_FILE_SIZE : Nat := 10 * 1024 * 1024

/-- Stat predicate `isSymbolicLink`. -/
def isSymbolicLinkStat : FsNode → Bool
  | FsNode.symlink _ => true
  | _ => false

/-- Stat predicate `isDirectory`. -/
def isDirectoryStat : FsNode → Bool
  | FsNode.dir => true
  | _ => false

/-- Stat field `size`. -/
def statSize : FsNode → Nat
  | FsNode.file _ sz => sz
  | _ => 0

/-- The read callback of `registerSkillFileTemplate` from the point the
skill is resolved: resolve the path, enforce the containment gate, check
existence, stat (following links), reject symlinks (dead code after
`statSync`), directories and oversized files, then return the content. -/
def readSkillFile (fs : Fs) (skillDir : FsPath) (filePath : String) :
    Except String String :=
  let fullPath := resolvePath skillDir filePath
  if !isPathWithinBase fullPath skillDir then
    Except.error ("Path \"" ++ filePath ++ "\" is outside the skill directory")
  else if !existsSync fs fullPath then
    Except.error ("File \"" ++ filePath ++ "\" not found in skill")
  else
    match statSync fs fullPath with
    | none => Except.error ("File \"" ++ filePath ++ "\" not found in skill")
    | some st =>
      if isSymbolicLinkStat st then
        Except.error ("Cannot read symlink \"" ++ filePath ++ "\"")
      else if isDirectoryStat st then
        Except.error ("\"" ++ filePath ++ "\" is a directory")
      else if statSize st > MAX_FILE_SIZE then
        Except.error "File too large. Maximum: 10MB"
      else
        match readFileSync fs fullPath with
        | some content => Except.ok content
        | none => Except.error "unreadable"

/-! ## Theorems -/

/-- C10: with both allow-lists empty, `isRepoAllowed` denies every
repository spec and `main`'s filter blocks every configured remote
source; in general a spec is allowed exactly when its owner equals,
case-insensitively, some entry of either list. -/
theorem c10_empty_allowlist_denies (config : GitHubConfig) (spec : GitHubRepoSpec)
    (specs : List GitHubRepoSpec) :
    (config.allowedOrgs = [] → config.allowedUsers = [] →
      isRepoAllowed spec config = false ∧ allowedSpecs specs config = []) ∧
    (isRepoAllowed spec config = true ↔
      ∃ e ∈ config.allowedOrgs ++ config.allowedUsers,
        strToLower e = strToLower spec.owner) := by
  constructor
  · intro h1 h2
    refine ⟨by simp [isRepoAllowed, h1, h2], ?_⟩
    simp only [allowedSpecs]
    rw [List.filter_eq_nil_iff]
    intro s _
    simp [isRepoAllowed, h1, h2]
  · unfold isRepoAllowed
    by_cases h : config.allowedOrgs = [] ∧ config.allowedUsers = []
    · simp [h.1, h.2]
    · rw [if_neg h]
      constructor
      · intro htrue
        by_cases ho : (config.allowedOrgs.any
            fun org => decide (strToLower org = strToLower spec.owner)) = true
        · rcases List.any_eq_true.mp ho with ⟨e, he, hl⟩
          exact ⟨e, List.mem_append_left _ he, of_decide_eq_true hl⟩
        · rw [if_neg ho] at htrue
          by_cases hu : (config.allowedUsers.any
              fun user => decide (strToLower user = strToLower spec.owner)) = true
          · rcases List.any_eq_true.mp hu with ⟨e, he, hl⟩
            exact ⟨e, List.mem_append_right _ he, of_decide_eq_true hl⟩
          · rw [if_neg hu] at htrue
            cases htrue
      · rintro ⟨e, he, hl⟩
        rcases List.mem_append.mp he with he | he
        · rw [if_pos (List.any_eq_true.mpr ⟨e, he, decide_eq_true hl⟩)]
        · by_cases ho : (config.allowedOrgs.any
              fun org => decide (strToLower org = strToLower spec.owner)) = true
          · rw [if_pos ho]
          · rw [if_neg ho, if_pos (List.any_eq_true.mpr ⟨e, he, decide_eq_true hl⟩)]

/-- Witness for C10 at a concrete configuration. -/
theorem c10_empty_allowlist_denies_witness :
    isRepoAllowed { owner := "OwnerX", repo := "r" } { allowedOrgs := [], allowedUsers := [] } = false ∧
    allowedSpecs [{ owner := "OwnerX", repo := "r" }] { allowedOrgs := [], allowedUsers := [] } = [] ∧
    isRepoAllowed { owner := "OwnerX", repo := "r" } { allowedOrgs := ["ownerx"], allowedUsers := [] } = true := by
  refine ⟨?_, ?_, ?_⟩
  · exact ((c10_empty_allowlist_denies _ { owner := "OwnerX", repo := "r" } []).1 rfl rfl).1
  · exact ((c10_empty_allowlist_denies { allowedOrgs := [], allowedUsers := [] }
      { owner := "x", repo := "r" } [{ owner := "OwnerX", repo := "r" }]).1 rfl rfl).2
  · exact (c10_empty_allowlist_denies { allowedOrgs := ["ownerx"], allowedUsers := [] }
      { owner := "OwnerX", repo := "r" } []).2.mpr ⟨"ownerx", by decide, by decide⟩

/-- C4 (amended): with an existing local cache whose tag list contains
the ref, or a 7-40 hex ref, `hasRemoteUpdates` returns `false`; with no
local cache it returns `true` — even for pinned refs, so "always
returns `false`" fails for the `@v1.2.3` spec exactly in the no-cache
state. -/
theorem c4_pinned_cache_behaviour (spec : GitHubRepoSpec) (repo : LocalRepo) (r : String)
    (href : spec.ref = some r)
    (hpin : strListHas repo.tags r = true ∨ isCommitHash r = true) :
    hasRemoteUpdates spec (some repo) = false ∧ hasRemoteUpdates spec none = true := by
  refine ⟨?_, rfl⟩
  rcases hpin with h | h <;> simp [hasRemoteUpdates, href, h]

/-- Witness for C4 at a concrete pinned spec and cache. -/
theorem c4_pinned_cache_behaviour_witness :
    hasRemoteUpdates { owner := "ownerX", repo := "repoY", ref := some "v1.2.3" }
      (some { tags := ["v1.2.3"], head := "aaa", remoteRefs := [] }) = false ∧
    hasRemoteUpdates { owner := "ownerX", repo := "repoY", ref := some "v1.2.3" } none = true :=
  c4_pinned_cache_behaviour { owner := "ownerX", repo := "repoY", ref := some "v1.2.3" }
    { tags := ["v1.2.3"], head := "aaa", remoteRefs := [] } "v1.2.3" rfl (Or.inl (by decide))

/-- Counterexample to C4 as stated: the spec parsed from
`github.com/ownerX/repoY@v1.2.3` is pinned, yet `hasRemoteUpdates` does
not always return `false` for it — with no local cache it returns
`true`. -/
theorem c4_nocache_pinned_counterexample :
    parseGitHubUrl "github.com/ownerX/repoY@v1.2.3" =
      Except.ok { owner := "ownerX", repo := "repoY", ref := some "v1.2.3", subpath := none } ∧
    hasRemoteUpdates { owner := "ownerX", repo := "repoY", ref := some "v1.2.3" } none = true :=
  ⟨rfl, rfl⟩

/-- C5 (amended): a spec is excluded from the polled subset exactly when
its ref looks like a version tag or a commit hash (existing tag names
outside that shape stay polled); and with an existing cache, a slash-free
ref among the cache's tags, or hash-shaped, makes `syncRepo` skip the
pull entirely — no failure, `updated = false`. -/
theorem c5_polled_subset_and_pinned_sync (specs : List GitHubRepoSpec)
    (spec : GitHubRepoSpec) (cacheDir : String) (env : GitEnv) (repo : LocalRepo) (r : String) :
    (spec ∈ getPolledSpecs specs ↔ spec ∈ specs ∧
      (∀ s, spec.ref = some s → isVersionTagPattern s = false ∧ isCommitHash s = false)) ∧
    (env.cache = some repo → spec.ref = some r → '/' ∉ r.data →
      (strListHas repo.tags r = true ∨ isCommitHash r = true) →
      syncRepo spec cacheDir env =
        { localPath := getRepoCachePath spec cacheDir,
          clonePath := getRepoClonePath spec cacheDir, updated := false, error := none }) := by
  constructor
  · rw [getPolledSpecs, List.mem_filter]
    refine and_congr_right (fun _ => ?_)
    cases href : spec.ref with
    | none => simp [href]
    | some s =>
      simp only [href, Option.some.injEq, Bool.and_eq_true, Bool.not_eq_true']
      constructor
      · rintro ⟨h1, h2⟩ s' rfl
        exact ⟨h1, h2⟩
      · intro h
        exact ⟨(h s rfl).1, (h s rfl).2⟩
  · intro hcache href hslash hpin
    have hskip : pinnedSkip spec repo = true := by
      rcases hpin with h | h <;> simp [pinnedSkip, href, hslash, h]
    simp [syncRepo, hcache, hskip]

/-- Witness for C5 at a concrete pinned spec, cache and environment. -/
theorem c5_polled_subset_and_pinned_sync_witness :
    ({ owner := "o", repo := "r", ref := some "v1.2.3" } : GitHubRepoSpec) ∉
      getPolledSpecs [{ owner := "o", repo := "r", ref := some "v1.2.3" }] ∧
    syncRepo { owner := "o", repo := "r", ref := some "v1.2.3" } "cache"
      { cache := some { tags := ["v1.2.3"], head := "aaa", remoteRefs := [] },
        pullOutcome := Except.error "network down" } =
      { localPath := "cache/o/r", clonePath := "cache/o/r", updated := false, error := none } := by
  constructor
  · intro hmem
    have h := ((c5_polled_subset_and_pinned_sync
      [{ owner := "o", repo := "r", ref := some "v1.2.3" }]
      { owner := "o", repo := "r", ref := some "v1.2.3" } "cache"
      { cache := none } { tags := [], head := "", remoteRefs := [] } "x").1.mp hmem).2
    exact absurd ((h "v1.2.3" rfl).1) (by decide)
  · exact (c5_polled_subset_and_pinned_sync [] { owner := "o", repo := "r", ref := some "v1.2.3" }
      "cache" { cache := some { tags := ["v1.2.3"], head := "aaa", remoteRefs := [] },
                pullOutcome := Except.error "network down" }
      { tags := ["v1.2.3"], head := "aaa", remoteRefs := [] } "v1.2.3").2 rfl rfl (by decide)
      (Or.inl (by decide))

/-- Counterexample to C5 as stated: `release-alpha` is an existing tag
name of its cache, yet the spec pinned to it is *not* excluded from the
polling manager's polled subset (`getPolledSpecs` keeps it, since the
exclusion tests only the version-tag shape and the hex-hash shape). -/
theorem c5_existing_tag_polled_counterexample :
    strListHas ({ tags := ["release-alpha"], head := "h", remoteRefs := [] } : LocalRepo).tags
      "release-alpha" = true ∧
    getPolledSpecs [{ owner := "o", repo := "r", ref := some "release-alpha" }] =
      [{ owner := "o", repo := "r", ref := some "release-alpha" }] := by
  exact ⟨by decide, rfl⟩

/-- A settled burst (each consecutive gap under the debounce window)
produces exactly the one deadline scheduled by its last event. -/
theorem debounceFires_burst (times : List Nat) (h1 : times ≠ [])
    (h2 : times.Chain' (fun a b => b < a + SKILL_REFRESH_DEBOUNCE_MS)) :
    debounceFires times = [times.getLast h1 + SKILL_REFRESH_DEBOUNCE_MS] := by
  induction times with
  | nil => exact absurd rfl h1
  | cons t rest ih =>
    cases rest with
    | nil => simp [debounceFires]
    | cons t2 rest2 =>
      have hgap : t2 < t + SKILL_REFRESH_DEBOUNCE_MS := (List.chain'_cons.mp h2).1
      have hr := ih (by simp) (List.chain'_cons.mp h2).2
      rw [List.getLast_cons (by simp)]
      simpa [debounceFires, hgap] using hr

/-- C9: a burst of qualifying filesystem events — definition-file
create/modify/delete, a skill-folder add containing a definition file,
or a folder removal — in which every consecutive pair falls within the
500ms debounce window produces exactly one refresh invocation, at the
deadline the last event scheduled. -/
theorem c9_debounced_burst_single_refresh (events : List (Nat × WatchEvent))
    (h0 : events ≠ [])
    (hq : ∀ e ∈ events, eventTriggersRefresh e.2 = true)
    (h2 : (events.map Prod.fst).Chain' (fun a b => b < a + SKILL_REFRESH_DEBOUNCE_MS)) :
    watcherFires events =
      [(events.map Prod.fst).getLast (by simpa using h0) + SKILL_REFRESH_DEBOUNCE_MS] := by
  have hfilter : events.filter (fun e => eventTriggersRefresh e.2) = events :=
    List.filter_eq_self.mpr hq
  rw [watcherFires, hfilter]
  exact debounceFires_burst _ (by simpa using h0) h2

/-- Witness for C9: a mixed burst — a definition-file change, a
skill-folder removal, and a skill-folder add whose probe finds a
definition file — collapses to one refresh at 800 + 500. -/
theorem c9_debounced_burst_single_refresh_witness :
    watcherFires
      [(0, WatchEvent.fileChange "/skills/alpha/SKILL.md"),
       (400, WatchEvent.dirUnlink "/skills/alpha"),
       (800, WatchEvent.dirAdd "/skills/beta" true)] = [1300] := by
  have h := c9_debounced_burst_single_refresh
    [(0, WatchEvent.fileChange "/skills/alpha/SKILL.md"),
     (400, WatchEvent.dirUnlink "/skills/alpha"),
     (800, WatchEvent.dirAdd "/skills/beta" true)]
    (by simp) (by decide)
    (by norm_num [List.chain'_cons, SKILL_REFRESH_DEBOUNCE_MS])
  simpa using h

/-- Concrete filesystem for C3: a skill directory holding a definition
file and a symbolic link whose target lies outside the directory. -/
def fs0 : Fs :=
  [ (["skills"], FsNode.dir),
    (["skills", "alpha"], FsNode.dir),
    (["skills", "alpha", "SKILL.md"], FsNode.file "alpha skill" 20),
    (["skills", "alpha", "link"], FsNode.symlink ["outside", "secret.txt"]),
    (["outside", "secret.txt"], FsNode.file "TOP-SECRET" 10) ]

/-- C3: the lexical `../` escape is rejected with no content returned,
but a read through a symbolic link is *not* rejected: `statSync` follows
links, so the handler's `isSymbolicLink()` test never fires and the
out-of-directory target's content is returned — contradicting the
handler's own "Reject symlinks" intent and the spec. -/
theorem c3_symlink_read_leaks_content :
    readSkillFile fs0 ["skills", "alpha"] "../../outside/secret.txt" =
      Except.error "Path \"../../outside/secret.txt\" is outside the skill directory" ∧
    lookupNode fs0 ["skills", "alpha", "link"] =
      some (FsNode.symlink ["outside", "secret.txt"]) ∧
    isPathWithinBase ["outside", "secret.txt"] ["skills", "alpha"] = false ∧
    readSkillFile fs0 ["skills", "alpha"] "link" = Except.ok "TOP-SECRET" :=
  ⟨rfl, rfl, rfl, rfl⟩

/-- Projecting the path back out of the `DirectoryInfo` wrappers
recovers the tier's path list unchanged. -/
theorem map_comp_mkDirInfo_path (src : DirectorySource) (pe : String → Bool)
    (l : List String) :
    List.map ((fun x => DirectoryInfo.path x) ∘ mkDirInfo src pe) l = l := by
  induction l with
  | nil => rfl
  | cons x xs ih => exact congrArg (List.cons x) ih

/-- C1: the resolved active directory set comes entirely from the
highest-priority tier that yields at least one entry (CLI over env over
persisted config); lower tiers contribute nothing to the active set,
every active entry is tagged with the active tier, and `isOverridden`
holds exactly when the active tier is `cli` or `env`. -/
theorem c1_tier_precedence (argv : List String) (envVal : Option String) (cfg : SkillConfig)
    (resolve : String → String) (pathExists : String → Bool) :
    (getConfigState argv envVal cfg resolve pathExists).directories.map (·.path) =
      (if parseCLIArgs argv resolve ≠ [] then parseCLIArgs argv resolve
       else if parseEnvVar envVal resolve ≠ [] then parseEnvVar envVal resolve
       else cfg.skillDirectories) ∧
    (∀ d ∈ (getConfigState argv envVal cfg resolve pathExists).directories,
      d.source = (getConfigState argv envVal cfg resolve pathExists).activeSource) ∧
    (parseCLIArgs argv resolve ≠ [] →
      (getConfigState argv envVal cfg resolve pathExists).activeSource = DirectorySource.cli) ∧
    (parseCLIArgs argv resolve = [] → parseEnvVar envVal resolve ≠ [] →
      (getConfigState argv envVal cfg resolve pathExists).activeSource = DirectorySource.env) ∧
    (parseCLIArgs argv resolve = [] → parseEnvVar envVal resolve = [] →
      (getConfigState argv envVal cfg resolve pathExists).activeSource = DirectorySource.config) ∧
    ((getConfigState argv envVal cfg resolve pathExists).isOverridden = true ↔
      ((getConfigState argv envVal cfg resolve pathExists).activeSource = DirectorySource.cli ∨
       (getConfigState argv envVal cfg resolve pathExists).activeSource = DirectorySource.env)) := by
  by_cases hc : parseCLIArgs argv resolve = []
  · by_cases he : parseEnvVar envVal resolve = []
    · simp [getConfigState, hc, he, mkDirInfo, map_comp_mkDirInfo_path]
    · simp [getConfigState, hc, he, mkDirInfo, map_comp_mkDirInfo_path]
  · simp [getConfigState, hc, mkDirInfo, map_comp_mkDirInfo_path]

/-- Witness for C1: CLI entries win over a populated env var and config
file; with no CLI entries the env tier wins; with neither, the
persisted tier is active and not overridden. -/
theorem c1_tier_precedence_witness :
    (getConfigState ["--static", "a,b"] (some "z") { skillDirectories := ["c"] }
      (fun p => "/" ++ p) (fun _ => true)).activeSource = DirectorySource.cli ∧
    (getConfigState ["--static"] (some "z") { skillDirectories := ["c"] }
      (fun p => "/" ++ p) (fun _ => true)).activeSource = DirectorySource.env ∧
    (getConfigState ["--static"] none { skillDirectories := ["c"] }
      (fun p => "/" ++ p) (fun _ => true)).activeSource = DirectorySource.config ∧
    (getConfigState ["--static", "a,b"] (some "z") { skillDirectories := ["c"] }
      (fun p => "/" ++ p) (fun _ => true)).directories.map (·.path) = ["/a", "/b"] := by
  refine ⟨?_, ?_, ?_, ?_⟩
  · exact (c1_tier_precedence ["--static", "a,b"] (some "z") { skillDirectories := ["c"] }
      (fun p => "/" ++ p) (fun _ => true)).2.2.1 (by decide)
  · exact (c1_tier_precedence ["--static"] (some "z") { skillDirectories := ["c"] }
      (fun p => "/" ++ p) (fun _ => true)).2.2.2.1 (by decide) (by decide)
  · exact (c1_tier_precedence ["--static"] none { skillDirectories := ["c"] }
      (fun p => "/" ++ p) (fun _ => true)).2.2.2.2.1 (by decide) (by decide)
  · have h := (c1_tier_precedence ["--static", "a,b"] (some "z") { skillDirectories := ["c"] }
      (fun p => "/" ++ p) (fun _ => true)).1
    simpa using h

/-- C6: `syncAllRepos` processes its specs sequentially in list order,
one result per spec, each result depending only on its own spec's
environment (so one failure cannot affect the rest); `syncRepo` is total
and on an underlying clone or pull failure its `error` field carries the
message produced by the four-way classification chain, which assigns
every message exactly one category. -/
theorem c6_sequential_sync_and_classification (specs : List GitHubRepoSpec)
    (cacheDir : String) (env : GitHubRepoSpec → GitEnv) (msg : String) :
    syncAllRepos specs cacheDir env = specs.map (fun s => syncRepo s cacheDir (env s)) ∧
    (syncAllRepos specs cacheDir env).length = specs.length ∧
    (∀ spec, (env spec).cache = none → (env spec).cloneOutcome = Except.error msg →
      (syncRepo spec cacheDir (env spec)).error = some (renderSyncError spec msg)) ∧
    (∀ spec repo, (env spec).cache = some repo → pinnedSkip spec repo = false →
      (env spec).pullOutcome = Except.error msg →
      (syncRepo spec cacheDir (env spec)).error = some (renderSyncError spec msg)) ∧
    ((classifyCat msg = ErrCat.authentication ↔
        (containsSub msg "Authentication failed" || containsSub msg "403") = true) ∧
     (classifyCat msg = ErrCat.rateLimited ↔
        (containsSub msg "Authentication failed" || containsSub msg "403") = false ∧
        containsSub msg "rate limit" = true) ∧
     (classifyCat msg = ErrCat.notFound ↔
        (containsSub msg "Authentication failed" || containsSub msg "403") = false ∧
        containsSub msg "rate limit" = false ∧
        (containsSub msg "not found" || containsSub msg "404") = true) ∧
     (classifyCat msg = ErrCat.generic ↔
        (containsSub msg "Authentication failed" || containsSub msg "403") = false ∧
        containsSub msg "rate limit" = false ∧
        (containsSub msg "not found" || containsSub msg "404") = false)) := by
  refine ⟨?_, ?_, ?_, ?_, ?_⟩
  · induction specs with
    | nil => rfl
    | cons s rest ih => simp [syncAllRepos, ih]
  · induction specs with
    | nil => rfl
    | cons s rest ih => simp [syncAllRepos, ih]
  · intro spec hcache hclone
    simp [syncRepo, hcache, hclone]
  · intro spec repo hcache hskip hpull
    simp [syncRepo, hcache, hskip, hpull]
  · unfold classifyCat
    cases hA : (containsSub msg "Authentication failed" || containsSub msg "403") <;>
      cases hR : containsSub msg "rate limit" <;>
        cases hN : (containsSub msg "not found" || containsSub msg "404") <;>
          simp_all

/-- Witness for C6: a two-spec sequential sync where the first spec's
clone fails with an HTTP 403 and the second succeeds anyway. -/
theorem c6_sequential_sync_and_classification_witness :
    (syncRepo { owner := "a", repo := "r1" } "cache"
      { cache := none, cloneOutcome := Except.error "HTTP 403" }).error =
      some (renderSyncError { owner := "a", repo := "r1" } "HTTP 403") ∧
    (syncRepo { owner := "b", repo := "r2" } "cache"
      { cache := some { tags := [], head := "h",
                        remoteRefs := [] }, pullOutcome := Except.error "server said not found" }).error =
      some (renderSyncError { owner := "b", repo := "r2" } "server said not found") ∧
    (syncAllRepos [{ owner := "a", repo := "r1" }, { owner := "b", repo := "r2" }] "cache"
      (fun s => if s.owner = "a" then { cache := none, cloneOutcome := Except.error "HTTP 403" }
                else { cache := none })).length = 2 ∧
    classifyCat "HTTP 403" = ErrCat.authentication := by
  refine ⟨?_, ?_, ?_, ?_⟩
  · exact (c6_sequential_sync_and_classification [] "cache"
      (fun _ => { cache := none, cloneOutcome := Except.error "HTTP 403" }) "HTTP 403").2.2.1
      { owner := "a", repo := "r1" } rfl rfl
  · exact (c6_sequential_sync_and_classification [] "cache"
      (fun _ => { cache := some { tags := [], head := "h", remoteRefs := [] },
                  pullOutcome := Except.error "server said not found" })
      "server said not found").2.2.2.1
      { owner := "b", repo := "r2" } { tags := [], head := "h", remoteRefs := [] }
      rfl (by decide) rfl
  · exact (c6_sequential_sync_and_classification
      [{ owner := "a", repo := "r1" }, { owner := "b", repo := "r2" }] "cache"
      (fun s => if s.owner = "a" then { cache := none, cloneOutcome := Except.error "HTTP 403" }
                else { cache := none }) "x").2.1
  · exact (c6_sequential_sync_and_classification [] "cache" (fun _ => { cache := none })
      "HTTP 403").2.2.2.2.1.mpr (by decide)

/-- Removing a key from an association list makes its lookup `none`. -/
theorem assocLookup_assocRemove {β : Type} (m : List (String × β)) (k : String) :
    assocLookup (assocRemove m k) k = none := by
  induction m with
  | nil => rfl
  | cons p rest ih =>
    by_cases h : p.1 = k
    · simpa [assocRemove, h] using ih
    · simpa [assocRemove, assocLookup, h] using ih

/-- Clearing a skill's override with no setting argument leaves no entry
for that skill, whatever the configuration held before. -/
theorem clear_none_lookup (cfg : SkillConfig) (name : String) :
    assocLookup (clearSkillInvocationOverride cfg name none).skillInvocationOverrides
      name = none := by
  unfold clearSkillInvocationOverride
  cases h : assocLookup cfg.skillInvocationOverrides name with
  | none => exact h
  | some o => exact assocLookup_assocRemove _ _

/-- A record built by `entryToSkill` carries its frontmatter defaults as
effective values, with both override markers unset. -/
theorem entryToSkill_fresh (dp : String) (src : SkillSource) (e : DirEntry)
    (s : SkillMetadata) (h : entryToSkill dp src e = some s) :
    s.effectiveAssistantInvocable = !s.disableModelInvocation ∧
    s.effectiveUserInvocable = s.userInvocable ∧
    s.isAssistantOverridden = false ∧ s.isUserOverridden = false := by
  unfold entryToSkill at h
  repeat' split at h
  all_goals cases h
  all_goals exact ⟨rfl, rfl, rfl, rfl⟩

/-- Every record `discoverSkills` produces is fresh in the sense of
`entryToSkill_fresh`. -/
theorem discoverSkills_fresh (dir : DirListing) (src : SkillSource) (s : SkillMetadata)
    (h : s ∈ discoverSkills dir src) :
    s.effectiveAssistantInvocable = !s.disableModelInvocation ∧
    s.effectiveUserInvocable = s.userInvocable ∧
    s.isAssistantOverridden = false ∧ s.isUserOverridden = false := by
  unfold discoverSkills at h
  split at h
  · cases h
  · rcases List.mem_filterMap.mp h with ⟨e, _, heq⟩
    exact entryToSkill_fresh dir.path src e s heq

/-- Applying an override never changes a record's identity key. -/
theorem applyOverrideTo_name (ovr : List (String × SkillInvocationOverrides))
    (s : SkillMetadata) : (applyOverrideTo ovr s).name = s.name := by
  unfold applyOverrideTo
  cases assocLookup ovr s.name <;> rfl

/-- A record whose name has no override entry passes through
`applyOverrideTo` unchanged. -/
theorem applyOverrideTo_none (ovr : List (String × SkillInvocationOverrides))
    (s : SkillMetadata) (h : assocLookup ovr s.name = none) :
    applyOverrideTo ovr s = s := by
  unfold applyOverrideTo
  rw [h]

/-- C7: setting any invocation override for a skill and then clearing it
with no setting argument, followed by re-running
`applyInvocationOverrides` over a freshly discovered record set, leaves
that skill's effective invocability at the frontmatter defaults with
both override markers false. -/
theorem c7_override_roundtrip (cfg : SkillConfig) (name : String) (setting : OvrSetting)
    (value : Bool) (dir : DirListing) (source : SkillSource) (skill : SkillMetadata)
    (hmem : skill ∈ applyInvocationOverrides (discoverSkills dir source)
      (clearSkillInvocationOverride (setSkillInvocationOverride cfg name setting value)
        name none).skillInvocationOverrides)
    (hname : skill.name = name) :
    skill.effectiveAssistantInvocable = !skill.disableModelInvocation ∧
    skill.effectiveUserInvocable = skill.userInvocable ∧
    skill.isAssistantOverridden = false ∧ skill.isUserOverridden = false := by
  rcases List.mem_map.mp hmem with ⟨s0, hs0, rfl⟩
  have hnm : s0.name = name := by rw [← applyOverrideTo_name]; exact hname
  have hlook : assocLookup (clearSkillInvocationOverride
      (setSkillInvocationOverride cfg name setting value) name
      none).skillInvocationOverrides s0.name = none := by
    rw [hnm]; exact clear_none_lookup _ _
  rw [applyOverrideTo_none _ _ hlook]
  exact discoverSkills_fresh dir source s0 hs0

/-- The concrete record the C7 witness round-trips. -/
def alphaSkill : SkillMetadata :=
  { name := "alpha", description := "d", path := "sd/alpha/SKILL.md",
    disableModelInvocation := false, userInvocable := true,
    effectiveAssistantInvocable := true, effectiveUserInvocable := true,
    isAssistantOverridden := false, isUserOverridden := false,
    source := DEFAULT_SKILL_SOURCE }

/-- The definition-file probe of the C7 witness's skill folder. -/
def alphaProbe : SkillFileProbe :=
  { fileName := "SKILL.md",
    parsed := Except.ok [("name", Yaml.str "alpha"), ("description", Yaml.str "d")] }

/-- The concrete one-skill directory listing the C7 witness scans. -/
def alphaDir : DirListing :=
  { path := "sd", present := true,
    entries := [{ name := "alpha", isDirectory := true, skillMd := some alphaProbe }] }

/-- Witness for C7: toggle a user-invocable override to `false`, unset
it, rediscover — the record keeps its frontmatter defaults. -/
theorem c7_override_roundtrip_witness :
    alphaSkill.effectiveUserInvocable = alphaSkill.userInvocable ∧
    alphaSkill.isUserOverridden = false := by
  have h := c7_override_roundtrip { skillDirectories := [] } "alpha" OvrSetting.user false
    alphaDir DEFAULT_SKILL_SOURCE alphaSkill (by decide) rfl
  exact ⟨h.2.1, h.2.2.2⟩

/-- A normalized string with at least owner and repo segments always
parses successfully. -/
theorem parse_ok_of_parts (url : String) (a b : String) (t : List String)
    (hp : pathParts (normalizedRest url) = a :: b :: t) :
    ∃ spec, parseGitHubUrl url = Except.ok spec := by
  simp only [parseGitHubUrl]
  rw [hp]
  cases t with
  | nil => exact ⟨_, rfl⟩
  | cons x t2 =>
    cases t2 with
    | nil => exact ⟨_, rfl⟩
    | cons r t3 =>
      by_cases hb : x = "tree" ∨ x = "blob"
      · exact ⟨_, if_pos hb⟩
      · exact ⟨_, if_neg hb⟩

/-- Fewer than two normalized segments always produce the
`InvalidReference` error. -/
theorem parse_error_of_short (url : String)
    (h : (pathParts (normalizedRest url)).length < 2) :
    parseGitHubUrl url = Except.error ("Invalid GitHub URL: " ++ url) := by
  simp only [parseGitHubUrl]
  cases hp : pathParts (normalizedRest url) with
  | nil => rfl
  | cons a tl =>
    cases tl with
    | nil => rfl
    | cons b tl2 => rw [hp] at h; simp at h; omega

/-- C8 (amended): `parseGitHubUrl` fails exactly when the input — after
stripping the optional protocol prefix, the host-domain prefix, a
trailing `.git`, and the ref suffix taken at the last `@` — yields fewer
than two path segments; otherwise the first two segments become owner
and repo, the ref comes from the `@` suffix or (when that is absent or
empty) from a `tree/<ref>` / `blob/<ref>` segment, and the remaining
segments are joined as the subpath. -/
theorem c8_parse_segments_contract (url : String) :
    ((∃ e, parseGitHubUrl url = Except.error e) ↔
      (pathParts (normalizedRest url)).length < 2) ∧
    (∀ owner repo, pathParts (normalizedRest url) = [owner, repo] →
      parseGitHubUrl url =
        Except.ok { owner := owner, repo := repo, ref := atRef url, subpath := none }) ∧
    (∀ owner repo x, pathParts (normalizedRest url) = [owner, repo, x] →
      parseGitHubUrl url =
        Except.ok { owner := owner, repo := repo, ref := atRef url, subpath := some x }) ∧
    (∀ owner repo t r tail2,
      pathParts (normalizedRest url) = owner :: repo :: t :: r :: tail2 →
      ((t = "tree" ∨ t = "blob") →
        parseGitHubUrl url =
          Except.ok
            { owner := owner, repo := repo,
              ref := if refFalsy (atRef url) then some r else atRef url,
              subpath := if tail2 = [] then none else some (joinStr '/' tail2) }) ∧
      (¬(t = "tree" ∨ t = "blob") →
        parseGitHubUrl url =
          Except.ok
            { owner := owner, repo := repo, ref := atRef url,
              subpath := some (joinStr '/' (t :: r :: tail2)) })) := by
  refine ⟨⟨?_, ?_⟩, ?_, ?_, ?_⟩
  · intro he
    by_contra hlen
    push_neg at hlen
    rcases hp : pathParts (normalizedRest url) with _ | ⟨a, _ | ⟨b, t⟩⟩
    · rw [hp] at hlen; simp at hlen
    · rw [hp] at hlen; simp at hlen
    · rcases parse_ok_of_parts url a b t hp with ⟨spec, hok⟩
      rcases he with ⟨e, herr⟩
      rw [hok] at herr
      cases herr
  · intro h
    exact ⟨_, parse_error_of_short url h⟩
  · intro owner repo hp
    simp only [parseGitHubUrl]
    rw [hp]
  · intro owner repo x hp
    simp only [parseGitHubUrl]
    rw [hp]
    rfl
  · intro owner repo t r tail2 hp
    constructor
    · intro hb
      simp only [parseGitHubUrl]
      rw [hp]
      exact if_pos hb
    · intro hb
      simp only [parseGitHubUrl]
      rw [hp]
      exact if_neg hb

/-- Witness for C8: a pinned reference and a web-style tree path, both
parsed through the contract. -/
theorem c8_parse_segments_contract_witness :
    parseGitHubUrl "github.com/owner/repo@v1" =
      Except.ok { owner := "owner", repo := "repo", ref := some "v1", subpath := none } ∧
    parseGitHubUrl "github.com/owner/repo/tree/main/docs" =
      Except.ok { owner := "owner", repo := "repo", ref := some "main",
                  subpath := some "docs" } := by
  constructor
  · exact (c8_parse_segments_contract "github.com/owner/repo@v1").2.1 "owner" "repo" rfl
  · exact ((c8_parse_segments_contract "github.com/owner/repo/tree/main/docs").2.2.2
      "owner" "repo" "tree" "main" ["docs"] rfl).1 (Or.inl rfl)

/-- The failure condition exactly as C8 words it: strip the optional
protocol prefix, the fixed host-domain prefix, and the trailing ref
suffix taken at the last `@` — with no `.git` stripping — and require
fewer than two path segments. -/
def specFailureCond (url : String) : Bool :=
  decide ((pathParts (splitLastAt (stripHost (stripProtocol url))).1).length < 2)

/-- Counterexample to C8 as stated: for `github.com/owner/.git` the
claim's stripping list leaves the two segments `owner` and `.git`, so
the claim predicts a successful parse, but the code also strips the
trailing `.git` (before taking the last `@`) and fails. -/
theorem c8_dotgit_counterexample :
    specFailureCond "github.com/owner/.git" = false ∧
    parseGitHubUrl "github.com/owner/.git" =
      Except.error "Invalid GitHub URL: github.com/owner/.git" :=
  ⟨rfl, rfl⟩

/-- The first record with a given name, in scan order: the record a
first-occurrence-wins index must retain. -/
def firstWithName (l : List SkillMetadata) (name : String) : Option SkillMetadata :=
  match l with
  | [] => none
  | s :: rest => if s.name = name then some s else firstWithName rest name

/-- Lookup distributes over association-list append, preferring the
left part. -/
theorem assocLookup_append {β : Type} (m1 m2 : List (String × β)) (k : String) :
    assocLookup (m1 ++ m2) k =
      (match assocLookup m1 k with
       | some v => some v
       | none => assocLookup m2 k) := by
  induction m1 with
  | nil => rfl
  | cons p rest ih =>
    obtain ⟨k', v⟩ := p
    by_cases h : k' = k
    · simp [assocLookup, h]
    · simpa [assocLookup, h] using ih

/-- The `createSkillMap` loop keyed lookup: entries already in the
accumulated map shadow the remaining records; otherwise the first
remaining record with the name wins. -/
theorem createSkillMapAux_lookup (l : List SkillMetadata) :
    ∀ (map : List (String × SkillMetadata)) (warns : List String) (name : String),
    assocLookup (createSkillMapAux map warns l).1 name =
      (match assocLookup map name with
       | some v => some v
       | none => firstWithName l name) := by
  induction l with
  | nil =>
    intro map warns name
    show assocLookup map name = _
    cases assocLookup map name <;> rfl
  | cons s rest ih =>
    intro map warns name
    unfold createSkillMapAux
    cases hs : assocLookup map s.name with
    | some v0 =>
      rw [ih]
      by_cases hn : s.name = name
      · subst hn
        rw [hs]
      · simp [firstWithName, hn]
    | none =>
      rw [ih, assocLookup_append]
      by_cases hn : s.name = name
      · subst hn
        rw [hs]
        simp [assocLookup, firstWithName]
      · simp only [assocLookup, if_neg hn, firstWithName]
        cases assocLookup map name <;> rfl

/-- Every record processed by the `createSkillMap` loop lands either in
the map or in the warning list, one for one. -/
theorem createSkillMapAux_count (l : List SkillMetadata) :
    ∀ (map : List (String × SkillMetadata)) (warns : List String),
    (createSkillMapAux map warns l).1.length + (createSkillMapAux map warns l).2.length =
      map.length + warns.length + l.length := by
  induction l with
  | nil => intro map warns; rfl
  | cons s rest ih =>
    intro map warns
    unfold createSkillMapAux
    cases hs : assocLookup map s.name with
    | some v0 =>
      have h := ih map (warns ++ [dupMapWarning s])
      simp only [List.length_append, List.length_cons, List.length_nil] at h ⊢
      omega
    | none =>
      have h := ih (map ++ [(s.name, s)]) warns
      simp only [List.length_append, List.length_cons, List.length_nil] at h ⊢
      omega

/-- The `seenNames` deduplication loop preserves first occurrences of
names not yet seen. -/
theorem dedupFirstAux_first (l : List SkillMetadata) :
    ∀ (seen : List (String × String)) (name : String),
    assocLookup seen name = none →
    firstWithName (dedupFirstAux seen l).1 name = firstWithName l name := by
  induction l with
  | nil => intro seen name _; rfl
  | cons s rest ih =>
    intro seen name hseen
    unfold dedupFirstAux
    cases hs : assocLookup seen s.name with
    | some prev =>
      have hn : s.name ≠ name := by
        intro he; rw [he, hseen] at hs; cases hs
      simp only [firstWithName, if_neg hn]
      exact ih seen name hseen
    | none =>
      by_cases hn : s.name = name
      · subst hn
        simp [firstWithName]
      · simp only [firstWithName, if_neg hn]
        refine ih _ name ?_
        simp [assocLookup, hn, hseen]

/-- The `seenNames` deduplication loop keeps or warns about every
record, one for one. -/
theorem dedupFirstAux_count (l : List SkillMetadata) :
    ∀ (seen : List (String × String)),
    (dedupFirstAux seen l).1.length + (dedupFirstAux seen l).2.length = l.length := by
  induction l with
  | nil => intro seen; rfl
  | cons s rest ih =>
    intro seen
    unfold dedupFirstAux
    cases hs : assocLookup seen s.name with
    | some prev =>
      have h := ih seen
      simp only [List.length_cons]
      omega
    | none =>
      have h := ih ((s.name, s.path) :: seen)
      simp only [List.length_cons]
      omega

/-- C2: in a multi-directory scan the record retained in the built
index for each name is the first occurrence in scan order (configured
directory order, then folder enumeration within a directory); every
suppressed later occurrence is matched by exactly one diagnostic
(retained + warnings = scanned, at both deduplication points); the
index build is total, so duplicates never surface as an error. -/
theorem c2_first_occurrence_wins (dirs : List ScanDir) (name : String) :
    assocLookup (createSkillMap (discoverSkillsFromDirs dirs).1).1 name =
      firstWithName (scanRecords dirs) name ∧
    assocLookup (createSkillMap (scanRecords dirs)).1 name =
      firstWithName (scanRecords dirs) name ∧
    (discoverSkillsFromDirs dirs).1.length + (discoverSkillsFromDirs dirs).2.length =
      (scanRecords dirs).length ∧
    (createSkillMap (scanRecords dirs)).1.length +
      (createSkillMap (scanRecords dirs)).2.length = (scanRecords dirs).length := by
  refine ⟨?_, ?_, ?_, ?_⟩
  · rw [createSkillMap, createSkillMapAux_lookup]
    show firstWithName (discoverSkillsFromDirs dirs).1 name = _
    rw [discoverSkillsFromDirs]
    exact dedupFirstAux_first _ [] name rfl
  · rw [createSkillMap, createSkillMapAux_lookup]
    rfl
  · rw [discoverSkillsFromDirs]
    exact dedupFirstAux_count _ []
  · rw [createSkillMap]
    simpa using createSkillMapAux_count _ [] []

end Skilljack
